import Mathlib

/-!
Verification of the in-memory file cache in `src/cache.rs` of the
Homepage repository (struct `Cache` with operations `new`, `store`,
`get`, `get_or_cache`, and the private helpers
`lowest_access_count_in_file_map`, `size`, `size_bytes`).

The Rust code is shallowly embedded: `HashMap` becomes an association
list whose list order stands for the map's iteration order, `Arc<SizedFile>`
becomes the value itself (sharing is irrelevant to the properties here),
`usize` becomes `Nat` (with the constant `usize::MAX` kept explicit where
the source mentions it), and a Rust panic (a failing `unwrap`) is the
`none` case of an `Option` result.  The injected filesystem read
(`SizedFile::open`) is a parameter `reader : Path → Option SizedFile`,
`none` covering every `io::Error`.
-/

namespace HomepageCache

/-- Paths (`PathBuf` in the source); equality is exact, as in the source. -/
abbrev Path := String

/-- `SizedFile { bytes, size }` from src/cache.rs.  The source stores the
byte buffer and separately the number of bytes read. -/
structure SizedFile where
  bytes : List Nat
  size : Nat
  deriving Repr, DecidableEq

/-- `CachedFile { path, file }` from src/cache.rs; the `Arc` around the
`SizedFile` is modelled by the value itself. -/
structure CachedFile where
  path : Path
  file : SizedFile
  deriving Repr, DecidableEq

/-- Association-list model of `HashMap` lookup (`map.get(k)`). -/
def alistLookup {α : Type} : List (Path × α) → Path → Option α
  | [], _ => none
  | (k, v) :: rest, k0 => if k = k0 then some v else alistLookup rest k0

/-- Association-list model of `HashMap::insert`: replaces the value at an
existing key in place, otherwise appends the new binding at the end. -/
def alistInsert {α : Type} : List (Path × α) → Path → α → List (Path × α)
  | [], k0, v0 => [(k0, v0)]
  | (k, v) :: rest, k0, v0 =>
      if k = k0 then (k0, v0) :: rest else (k, v) :: alistInsert rest k0 v0

/-- Association-list model of `HashMap::remove` (drops the binding of the
given key). -/
def alistRemove {α : Type} : List (Path × α) → Path → List (Path × α)
  | [], _ => []
  | (k, v) :: rest, k0 =>
      if k = k0 then rest else (k, v) :: alistRemove rest k0

/-- The keys of an association list, in iteration order. -/
def alistKeys {α : Type} (m : List (Path × α)) : List Path :=
  m.map Prod.fst

instance : DecidableEq (Except String Unit) := fun x y =>
  match x, y with
  | Except.ok u, Except.ok v =>
      match u, v with
      | (), () => isTrue rfl
  | Except.error a, Except.error b =>
      if h : a = b then isTrue (h ▸ rfl)
      else isFalse (by intro hh; injection hh with h2; exact h h2)
  | Except.ok _, Except.error _ => isFalse (fun hh => Except.noConfusion hh)
  | Except.error _, Except.ok _ => isFalse (fun hh => Except.noConfusion hh)

/-- `usize::MAX`, the start value of the minimum search in
`lowest_access_count_in_file_map`. -/
def USIZE_MAX : Nat := 2 ^ 64 - 1

/-- The `Cache` struct of src/cache.rs: the size limit (used by the code
as a bound on the number of entries), the resident file map, and the
access-count map. -/
structure Cache where
  size_limit : Nat
  file_map : List (Path × SizedFile)
  access_count_map : List (Path × Nat)
  deriving Repr, DecidableEq

/-- `Cache::new(size_limit)` from src/cache.rs: builds the cache with both
maps empty; no validation of any kind is performed. -/
def Cache.new (size_limit : Nat) : Cache :=
  { size_limit := size_limit, file_map := [], access_count_map := [] }

/-- `Cache::size`: counts the keys of `file_map` one by one. -/
def Cache.size (c : Cache) : Nat :=
  (alistKeys c.file_map).foldl (fun s _ => s + 1) 0

/-- `Cache::size_bytes`: folds the sizes of the resident files. -/
def Cache.size_bytes (c : Cache) : Nat :=
  c.file_map.foldl (fun s x => s + x.2.size) 0

/-- The loop of `lowest_access_count_in_file_map`: runs over the resident
keys carrying the best `(count, key)` pair so far; looking up a key with
no access-count entry is the `unwrap` that panics, modelled as `none`. -/
def lowestLoop (counts : List (Path × Nat)) :
    List Path → Nat × Path → Option (Nat × Path)
  | [], best => some best
  | k :: rest, best =>
      match alistLookup counts k with
      | none => none
      | some cnt =>
          if cnt < best.1 then lowestLoop counts rest (cnt, k)
          else lowestLoop counts rest best

/-- `Cache::lowest_access_count_in_file_map` from src/cache.rs: `none`
models the panic of the `unwrap` on a resident key with no access count;
`some none` is the source's `None` (empty `file_map`); `some (some p)` is
the source's `Some(p)`.  The minimum search starts at
`(usize::MAX, PathBuf::new())`. -/
def Cache.lowest_access_count_in_file_map (c : Cache) :
    Option (Option (Nat × Path)) :=
  if (alistKeys c.file_map).length = 0 then some none
  else
    match lowestLoop c.access_count_map (alistKeys c.file_map) (USIZE_MAX, "") with
    | none => none
    | some best => some (some best)

/-- `Cache::store(path, file)` from src/cache.rs.  The outer `Option`
models a panic inside `lowest_access_count_in_file_map`; the inner
`Except String Unit` is the source's `Result<(), String>`. -/
def Cache.store (c : Cache) (path : Path) (file : SizedFile) :
    Option (Cache × Except String Unit) :=
  if c.size < c.size_limit then
    some ({ c with file_map := alistInsert c.file_map path file }, Except.ok ())
  else
    match c.lowest_access_count_in_file_map with
    | none => none
    | some none =>
        some ({ c with file_map := alistInsert c.file_map path file },
              Except.ok ())
    | some (some (lowest_count, lowest_key)) =>
        let possible_store_count : Nat :=
          (alistLookup c.access_count_map path).getD 0
        if possible_store_count > lowest_count then
          some ({ c with
                    file_map :=
                      alistInsert (alistRemove c.file_map lowest_key) path file },
                Except.ok ())
        else
          some (c, Except.error
            "File demand for file is lower than files already in the cache")

/-- `Cache::get(path)` from src/cache.rs: bumps the access count for the
path (`entry(..).or_insert(0)` then `+= 1`) and returns the resident file
wrapped in a `CachedFile`, if any. -/
def Cache.get (c : Cache) (path : Path) : Cache × Option CachedFile :=
  let newCount : Nat := (alistLookup c.access_count_map path).getD 0 + 1
  let c1 : Cache :=
    { c with access_count_map := alistInsert c.access_count_map path newCount }
  match alistLookup c1.file_map path with
  | some sized_file => (c1, some { path := path, file := sized_file })
  | none => (c1, none)

/-- `Cache::get_or_cache(pathbuf)` from src/cache.rs, with the filesystem
read `SizedFile::open` injected as `reader` (`none` is any `io::Error`).
The source discards `store`'s `Result` (`let _ = self.store(..)`), but a
panic inside `store` would still propagate: that is the outer `none`. -/
def Cache.get_or_cache (reader : Path → Option SizedFile) (c : Cache)
    (pathbuf : Path) : Option (Cache × Option CachedFile) :=
  match c.get pathbuf with
  | (c1, some cache_file) => some (c1, some cache_file)
  | (c1, none) =>
      match reader pathbuf with
      | some file =>
          let cached_file : CachedFile := { path := pathbuf, file := file }
          match c1.store pathbuf file with
          | none => none
          | some (c2, _) => some (c2, some cached_file)
      | none => some (c1, none)

/-- The keys a `store` removed from residency: paths resident in `c` but no
longer resident in `c2`. -/
def evicted (c c2 : Cache) : List Path :=
  (alistKeys c.file_map).filter (fun k => decide (k ∉ alistKeys c2.file_map))

/-- Well-formedness of a cache state as the source relies on it: every
resident path has an access-count entry (the comment at the `unwrap` in
`lowest_access_count_in_file_map` asserts exactly this), the resident map
has no duplicate keys (a `HashMap` invariant), and every stored count fits
in `usize`. -/
def WF (c : Cache) : Prop :=
  (∀ k ∈ alistKeys c.file_map, (alistLookup c.access_count_map k).isSome = true) ∧
  (alistKeys c.file_map).Nodup ∧
  (∀ e ∈ c.access_count_map, e.2 ≤ USIZE_MAX)

instance (c : Cache) : Decidable (WF c) := by
  unfold WF
  infer_instance

theorem alistLookup_mem {α : Type} {m : List (Path × α)} {k : Path} {v : α}
    (h : alistLookup m k = some v) : (k, v) ∈ m := by
  induction m with
  | nil => simp [alistLookup] at h
  | cons e rest ih =>
      obtain ⟨k1, v1⟩ := e
      by_cases hk : k1 = k
      · subst hk
        simp [alistLookup] at h
        subst h
        exact List.mem_cons_self _ _
      · simp only [alistLookup, if_neg hk] at h
        exact List.mem_cons_of_mem _ (ih h)

theorem alistLookup_isSome_iff {α : Type} {m : List (Path × α)} {k : Path} :
    (alistLookup m k).isSome = true ↔ k ∈ alistKeys m := by
  induction m with
  | nil => simp [alistLookup, alistKeys]
  | cons e rest ih =>
      obtain ⟨k1, v1⟩ := e
      by_cases hk : k1 = k
      · subst hk
        simp [alistLookup, alistKeys]
      · simp [alistLookup, alistKeys, hk, ih]
        intro hkk
        exact absurd hkk.symm hk

theorem alistLookup_insert_self {α : Type} {m : List (Path × α)} {p : Path}
    {v : α} : alistLookup (alistInsert m p v) p = some v := by
  induction m with
  | nil => simp [alistInsert, alistLookup]
  | cons e rest ih =>
      obtain ⟨k1, v1⟩ := e
      by_cases hk : k1 = p
      · simp [alistInsert, hk, alistLookup]
      · simp [alistInsert, hk, alistLookup, ih]

theorem alistLookup_insert_ne {α : Type} {m : List (Path × α)} {k p : Path}
    {v : α} (h : k ≠ p) :
    alistLookup (alistInsert m p v) k = alistLookup m k := by
  induction m with
  | nil => simp [alistInsert, alistLookup, Ne.symm h]
  | cons e rest ih =>
      obtain ⟨k1, v1⟩ := e
      by_cases hk : k1 = p
      · subst hk
        simp [alistInsert, alistLookup, Ne.symm h]
      · simp only [alistInsert, if_neg hk, alistLookup]
        by_cases hk2 : k1 = k
        · simp [hk2]
        · simp [hk2, ih]

theorem alistLookup_remove_ne {α : Type} {m : List (Path × α)} {k r : Path}
    (h : k ≠ r) : alistLookup (alistRemove m r) k = alistLookup m k := by
  induction m with
  | nil => simp [alistRemove]
  | cons e rest ih =>
      obtain ⟨k1, v1⟩ := e
      by_cases hk : k1 = r
      · subst hk
        simp [alistRemove, alistLookup, Ne.symm h]
      · simp only [alistRemove, if_neg hk, alistLookup]
        by_cases hk2 : k1 = k
        · simp [hk2]
        · simp [hk2, ih]

theorem mem_keys_insert {α : Type} {m : List (Path × α)} {k p : Path} {v : α}
    (h : k ∈ alistKeys m) : k ∈ alistKeys (alistInsert m p v) := by
  rcases eq_or_ne k p with rfl | hne
  · rw [← alistLookup_isSome_iff, alistLookup_insert_self]
    rfl
  · rw [← alistLookup_isSome_iff, alistLookup_insert_ne hne,
      alistLookup_isSome_iff]
    exact h

theorem mem_keys_remove {α : Type} {m : List (Path × α)} {k r : Path}
    (h : k ∈ alistKeys m) (hne : k ≠ r) :
    k ∈ alistKeys (alistRemove m r) := by
  rw [← alistLookup_isSome_iff, alistLookup_remove_ne hne,
    alistLookup_isSome_iff]
  exact h

theorem mem_evicted {c c2 : Cache} {k : Path} :
    k ∈ evicted c c2 ↔
      k ∈ alistKeys c.file_map ∧ k ∉ alistKeys c2.file_map := by
  simp [evicted, List.mem_filter]

theorem lowestLoop_isSome (counts : List (Path × Nat)) :
    ∀ (keys : List Path) (best : Nat × Path),
    (∀ k ∈ keys, (alistLookup counts k).isSome = true) →
    (lowestLoop counts keys best).isSome = true := by
  intro keys
  induction keys with
  | nil => intro best _; rfl
  | cons k rest ih =>
      intro best h
      have hk := h k (List.mem_cons_self _ _)
      rw [lowestLoop]
      cases hc : alistLookup counts k with
      | none => rw [hc] at hk; simp at hk
      | some cnt =>
          have hrest : ∀ k2 ∈ rest, (alistLookup counts k2).isSome = true :=
            fun k2 hk2 => h k2 (List.mem_cons_of_mem _ hk2)
          by_cases hlt : cnt < best.1
          · simp only [hlt, if_pos]
            exact ih _ hrest
          · simp only [hlt, if_neg, ite_false]
            exact ih _ hrest

theorem lowestLoop_spec (counts : List (Path × Nat)) :
    ∀ (keys : List Path) (best res : Nat × Path),
    lowestLoop counts keys best = some res →
    (res = best ∨ (res.2 ∈ keys ∧ alistLookup counts res.2 = some res.1)) ∧
    res.1 ≤ best.1 ∧
    (∀ k ∈ keys, ∀ cnt, alistLookup counts k = some cnt → res.1 ≤ cnt) := by
  intro keys
  induction keys with
  | nil =>
      intro best res h
      rw [lowestLoop] at h
      rw [Option.some.injEq] at h
      subst h
      exact ⟨Or.inl rfl, le_refl _, by simp⟩
  | cons k rest ih =>
      intro best res h
      rw [lowestLoop] at h
      cases hc : alistLookup counts k with
      | none => rw [hc] at h; exact absurd h (by simp)
      | some cnt =>
          simp only [hc] at h
          by_cases hlt : cnt < best.1
          · rw [if_pos hlt] at h
            obtain ⟨hcase, hle, hmin⟩ := ih (cnt, k) res h
            refine ⟨?_, le_trans hle (le_of_lt hlt), ?_⟩
            · rcases hcase with rfl | ⟨hmem, hlook⟩
              · exact Or.inr ⟨List.mem_cons_self _ _, hc⟩
              · exact Or.inr ⟨List.mem_cons_of_mem _ hmem, hlook⟩
            · intro k2 hk2 cnt2 hc2
              rcases List.mem_cons.mp hk2 with rfl | hk2r
              · rw [hc] at hc2
                rw [Option.some.injEq] at hc2
                subst hc2
                exact hle
              · exact hmin k2 hk2r cnt2 hc2
          · rw [if_neg hlt] at h
            obtain ⟨hcase, hle, hmin⟩ := ih best res h
            refine ⟨?_, hle, ?_⟩
            · rcases hcase with rfl | ⟨hmem, hlook⟩
              · exact Or.inl rfl
              · exact Or.inr ⟨List.mem_cons_of_mem _ hmem, hlook⟩
            · intro k2 hk2 cnt2 hc2
              rcases List.mem_cons.mp hk2 with rfl | hk2r
              · rw [hc] at hc2
                rw [Option.some.injEq] at hc2
                subst hc2
                exact le_trans hle (Nat.le_of_not_lt hlt)
              · exact hmin k2 hk2r cnt2 hc2

/-- If `lowest_access_count_in_file_map` returned `Some((lc, lk))`, that
pair is the result of the minimum-search loop started at
`(usize::MAX, "")` over the resident keys. -/
theorem lowest_eq_some {c : Cache} {lc : Nat} {lk : Path}
    (h : c.lowest_access_count_in_file_map = some (some (lc, lk))) :
    lowestLoop c.access_count_map (alistKeys c.file_map) (USIZE_MAX, "") =
      some (lc, lk) := by
  rw [Cache.lowest_access_count_in_file_map] at h
  split at h
  · exact absurd h (by simp)
  · cases hll :
        lowestLoop c.access_count_map (alistKeys c.file_map) (USIZE_MAX, "") with
    | none => rw [hll] at h; exact absurd h (by simp)
    | some best =>
        rw [hll] at h
        simp only [Option.some.injEq] at h
        rw [h]

/-- `store` never touches the access-count map or the size limit. -/
theorem store_preserves_counts {c : Cache} {p : Path} {f : SizedFile}
    {c2 : Cache} {r : Except String Unit} (h : c.store p f = some (c2, r)) :
    c2.access_count_map = c.access_count_map ∧ c2.size_limit = c.size_limit := by
  rw [Cache.store] at h
  by_cases hsz : c.size < c.size_limit
  · rw [if_pos hsz, Option.some.injEq, Prod.mk.injEq] at h
    rw [← h.1]
    exact ⟨rfl, rfl⟩
  · rw [if_neg hsz] at h
    cases hlow : c.lowest_access_count_in_file_map with
    | none => rw [hlow] at h; exact absurd h (by simp)
    | some lo =>
        cases lo with
        | none =>
            simp only [hlow, Option.some.injEq, Prod.mk.injEq] at h
            rw [← h.1]
            exact ⟨rfl, rfl⟩
        | some pr =>
            obtain ⟨lc, lk⟩ := pr
            simp only [hlow] at h
            by_cases hgt : (alistLookup c.access_count_map p).getD 0 > lc
            · rw [if_pos hgt, Option.some.injEq, Prod.mk.injEq] at h
              rw [← h.1]
              exact ⟨rfl, rfl⟩
            · rw [if_neg hgt, Option.some.injEq, Prod.mk.injEq] at h
              rw [← h.1]
              exact ⟨rfl, rfl⟩

/-- Case analysis of a successful (`Ok`) `store`: either the file was
inserted with no eviction, or the minimum-search returned a pair
`(lc, lk)`, the candidate's count strictly exceeded `lc`, and `lk` was
removed before inserting. -/
theorem store_ok_cases {c : Cache} {p : Path} {f : SizedFile} {c2 : Cache}
    (h : c.store p f = some (c2, Except.ok ())) :
    c2.file_map = alistInsert c.file_map p f ∨
    ∃ lc lk,
      lowestLoop c.access_count_map (alistKeys c.file_map) (USIZE_MAX, "") =
        some (lc, lk) ∧
      lc < (alistLookup c.access_count_map p).getD 0 ∧
      c2.file_map = alistInsert (alistRemove c.file_map lk) p f := by
  rw [Cache.store] at h
  by_cases hsz : c.size < c.size_limit
  · rw [if_pos hsz, Option.some.injEq, Prod.mk.injEq] at h
    left
    rw [← h.1]
  · rw [if_neg hsz] at h
    cases hlow : c.lowest_access_count_in_file_map with
    | none => rw [hlow] at h; exact absurd h (by simp)
    | some lo =>
        cases lo with
        | none =>
            simp only [hlow, Option.some.injEq, Prod.mk.injEq] at h
            left
            rw [← h.1]
        | some pr =>
            obtain ⟨lc, lk⟩ := pr
            simp only [hlow] at h
            by_cases hgt : (alistLookup c.access_count_map p).getD 0 > lc
            · rw [if_pos hgt, Option.some.injEq, Prod.mk.injEq] at h
              right
              refine ⟨lc, lk, lowest_eq_some hlow, hgt, ?_⟩
              rw [← h.1]
            · rw [if_neg hgt, Option.some.injEq, Prod.mk.injEq] at h
              exact absurd h.2 (by simp)

/-- Closed form of `Cache.get`: the access count of the requested path is
bumped to its previous value plus one (so it is created at 1 when absent),
nothing else changes, and the result mirrors the residency lookup. -/
theorem get_eq (c : Cache) (p : Path) :
    c.get p =
      (Cache.mk c.size_limit c.file_map
          (alistInsert c.access_count_map p
            ((alistLookup c.access_count_map p).getD 0 + 1)),
        (alistLookup c.file_map p).map
          (fun sf => { path := p, file := sf })) := by
  cases hc : alistLookup c.file_map p with
  | none => simp [Cache.get, hc]
  | some sf => simp [Cache.get, hc]

/-- As long as every resident path is counted, `store` cannot hit the
panicking `unwrap` in `lowest_access_count_in_file_map`. -/
theorem store_isSome_of_counted {c : Cache} (p : Path) (f : SizedFile)
    (h : ∀ k ∈ alistKeys c.file_map,
      (alistLookup c.access_count_map k).isSome = true) :
    (c.store p f).isSome = true := by
  rw [Cache.store]
  by_cases hsz : c.size < c.size_limit
  · rw [if_pos hsz]
    rfl
  · rw [if_neg hsz, Cache.lowest_access_count_in_file_map]
    by_cases hlen : (alistKeys c.file_map).length = 0
    · rw [if_pos hlen]
      rfl
    · rw [if_neg hlen]
      have hs := lowestLoop_isSome c.access_count_map (alistKeys c.file_map)
        (USIZE_MAX, "") h
      cases hl : lowestLoop c.access_count_map (alistKeys c.file_map)
          (USIZE_MAX, "") with
      | none => rw [hl] at hs; simp at hs
      | some best =>
          obtain ⟨lc, lk⟩ := best
          simp only [hl]
          by_cases hgt : (alistLookup c.access_count_map p).getD 0 > lc
          · rw [if_pos hgt]
            rfl
          · rw [if_neg hgt]
            rfl

/-- Per-victim analysis of a successful `store`: any evicted path is
counted, its count is strictly below the candidate's, it is minimal among
the counts of all resident paths, and it is the only victim. -/
theorem store_ok_evicted {c : Cache} {p : Path} {f : SizedFile} {c2 : Cache}
    (hbound : ∀ e ∈ c.access_count_map, e.2 ≤ USIZE_MAX)
    (h : c.store p f = some (c2, Except.ok ())) :
    ∀ k ∈ evicted c c2, ∃ cnt,
      alistLookup c.access_count_map k = some cnt ∧
      cnt < (alistLookup c.access_count_map p).getD 0 ∧
      (∀ k2 ∈ alistKeys c.file_map, ∀ cnt2,
        alistLookup c.access_count_map k2 = some cnt2 → cnt ≤ cnt2) ∧
      (∀ k2 ∈ evicted c c2, k2 = k) := by
  intro k hk
  obtain ⟨hkmem, hknot⟩ := mem_evicted.mp hk
  rcases store_ok_cases h with hins | ⟨lc, lk, hll, hlt, hmap⟩
  · exact absurd (hins ▸ mem_keys_insert hkmem) hknot
  · have huniq : ∀ k2 ∈ evicted c c2, k2 = lk := by
      intro k2 hk2
      obtain ⟨hk2mem, hk2not⟩ := mem_evicted.mp hk2
      by_contra hne
      exact hk2not (hmap ▸ mem_keys_insert (mem_keys_remove hk2mem hne))
    have hkeq : k = lk := huniq k hk
    rw [hkeq]
    obtain ⟨hcase, _, hmin⟩ :=
      lowestLoop_spec c.access_count_map (alistKeys c.file_map)
        (USIZE_MAX, "") (lc, lk) hll
    rcases hcase with hinit | ⟨_, hlook⟩
    · -- the minimum search returned its start value `(usize::MAX, "")`;
      -- the admission test `count > usize::MAX` cannot pass for a count
      -- that fits in `usize`
      exfalso
      have hlc : lc = USIZE_MAX := congrArg Prod.fst hinit
      rw [hlc] at hlt
      cases hp : alistLookup c.access_count_map p with
      | none => rw [hp] at hlt; simp at hlt
      | some n =>
          have hn := hbound (p, n) (alistLookup_mem hp)
          rw [hp] at hlt
          simp only [Option.getD_some] at hlt
          exact absurd (lt_of_lt_of_le hlt hn) (lt_irrefl _)
    · exact ⟨lc, hlook, hlt, fun k2 hk2 cnt2 hc2 => hmin k2 hk2 cnt2 hc2, huniq⟩

theorem length_le_one_of_all_eq {l : List Path} (hnd : l.Nodup)
    (h : ∀ x ∈ l, ∀ y ∈ l, x = y) : l.length ≤ 1 := by
  match l with
  | [] => simp
  | [x] => simp
  | x :: y :: t =>
      exfalso
      have hxy : x = y :=
        h x (List.mem_cons_self _ _)
          (y) (List.mem_cons_of_mem _ (List.mem_cons_self _ _))
      rw [List.nodup_cons] at hnd
      exact hnd.1 (hxy ▸ List.mem_cons_self _ _)

/-! Concrete states and readers used by the counterexamples, evaluations
and witnesses below. -/

def fileA : SizedFile := { bytes := [1, 2, 3], size := 3 }

def fileB : SizedFile := { bytes := [4, 5], size := 2 }

def file2 : SizedFile := { bytes := [9, 9], size := 2 }

def file5 : SizedFile := { bytes := [0, 0, 0, 0, 0], size := 5 }

def file10 : SizedFile := { bytes := List.replicate 10 1, size := 10 }

def file25 : SizedFile := { bytes := List.replicate 25 1, size := 25 }

def readerB : Path → Option SizedFile :=
  fun p => if p = "/b" then some fileB else none

def readerBig : Path → Option SizedFile :=
  fun p => if p = "/big" then some file5 else none

def readerNone : Path → Option SizedFile := fun _ => none

/-- Limit 1; one resident 3-byte file `/a` with access count 5. -/
def cacheHot : Cache :=
  { size_limit := 1, file_map := [("/a", fileA)],
    access_count_map := [("/a", 5)] }

/-- `cacheHot` after `get_or_cache` of `/b`: `/b` observed once, read,
and refused admission (its count 1 does not exceed `/a`'s 5). -/
def cacheHotAfter : Cache :=
  { size_limit := 1, file_map := [("/a", fileA)],
    access_count_map := [("/a", 5), ("/b", 1)] }

/-- Limit 1; resident 10-byte `/a` with count 1; `/b` counted twice. -/
def cacheEv : Cache :=
  { size_limit := 1, file_map := [("/a", file10)],
    access_count_map := [("/a", 1), ("/b", 2)] }

/-- `cacheEv` after storing the 25-byte `/b`: `/a` was evicted. -/
def cacheEvAfter : Cache :=
  { size_limit := 1, file_map := [("/b", file25)],
    access_count_map := [("/a", 1), ("/b", 2)] }

/-- The total byte size of the entries a `store` evicted. -/
def evictedBytes (c c2 : Cache) : Nat :=
  (evicted c c2).foldl
    (fun s k => s + ((alistLookup c.file_map k).map SizedFile.size).getD 0) 0

/-- Fresh cache of limit 1 after `store "/a" file2`. -/
def cacheC1After : Cache :=
  { size_limit := 1, file_map := [("/a", file2)], access_count_map := [] }

/-- Fresh cache of limit 1 after `store "/a" fileA` (no counter created). -/
def cacheC8a : Cache :=
  { size_limit := 1, file_map := [("/a", fileA)], access_count_map := [] }

/-- C1: the spec reads the size limit as a bound in bytes on the resident
total, but the code uses `size_limit` as a bound on the number of resident
entries (its own comment says it "should be used as the number of bytes"):
storing a 2-byte file into a fresh cache with limit 1 is admitted and
leaves `size_bytes` = 2 above the limit. -/
theorem C1_size_limit_not_bytes_eval :
    (Cache.new 1).store "/a" file2 = some (cacheC1After, Except.ok ()) ∧
    cacheC1After.size_limit < cacheC1After.size_bytes := by decide

/-- C8: the public `store` inserts a path into the resident map without
creating its access-count entry, so residency does not imply counted; the
next `store` then hits the `unwrap` in
`lowest_access_count_in_file_map` and panics (modelled as `none`),
although the code's own comment claims the entry is guaranteed to exist. -/
theorem C8_store_then_store_panics_eval :
    (Cache.new 1).store "/a" fileA = some (cacheC8a, Except.ok ()) ∧
    alistLookup cacheC8a.file_map "/a" = some fileA ∧
    alistLookup cacheC8a.access_count_map "/a" = none ∧
    cacheC8a.store "/b" fileB = none := by decide

/-- C9 counterexample: `Cache::new(0)` is not rejected — it returns a
fully usable engine with the invalid limit: a `store` succeeds on it and
`get_or_cache` serves and even retains a file. -/
theorem C9_counterexample_zero_limit_usable :
    (Cache.new 0).size_limit = 0 ∧
    (Cache.new 0).store "/a" fileA =
      some (Cache.mk 0 [("/a", fileA)] [], Except.ok ()) ∧
    Option.map Prod.snd (Cache.get_or_cache readerB (Cache.new 0) "/b") =
      some (some { path := "/b", file := fileB }) := by decide

/-- C9 corrected: construction performs no validation at all —
`Cache::new(limit)` returns, for every limit including zero, an engine
carrying exactly that limit, and the engine is immediately usable: the
first `store` succeeds unconditionally.  There is no configuration-error
path. -/
theorem C9_amended_no_validation (n : Nat) (p : Path) (f : SizedFile) :
    (Cache.new n).size_limit = n ∧
    (Cache.new n).store p f =
      some (Cache.mk n [(p, f)] [], Except.ok ()) := by
  refine ⟨rfl, ?_⟩
  rw [Cache.store]
  rcases Nat.eq_zero_or_pos n with rfl | hpos
  · rw [if_neg (by simp [Cache.new, Cache.size, alistKeys])]
    rw [Cache.lowest_access_count_in_file_map]
    rw [if_pos (by simp [Cache.new, alistKeys])]
    rfl
  · rw [if_pos (show (Cache.new n).size < (Cache.new n).size_limit by
      simpa [Cache.new, Cache.size, alistKeys] using hpos)]
    rfl

/-- C10: on a state whose resident map is empty, `store` inserts the file
and returns `Ok` unconditionally — whatever the configured limit (zero
included) and whatever the path's access count (never-observed paths
included): with an empty map either `size() < size_limit` holds, or the
source's `None` branch of `lowest_access_count_in_file_map` inserts
without any demand check. -/
theorem C10_store_into_empty_map_always_ok (c : Cache) (p : Path)
    (f : SizedFile) (hempty : c.file_map = []) :
    c.store p f =
      some (Cache.mk c.size_limit [(p, f)] c.access_count_map,
        Except.ok ()) := by
  rw [Cache.store]
  rcases Nat.eq_zero_or_pos c.size_limit with hz | hpos
  · rw [if_neg (by simp [Cache.size, alistKeys, hempty, hz])]
    rw [Cache.lowest_access_count_in_file_map]
    rw [if_pos (by simp [alistKeys, hempty])]
    rw [hempty]
    rfl
  · rw [if_pos (show c.size < c.size_limit by
      simpa [Cache.size, alistKeys, hempty] using hpos)]
    rw [hempty]
    rfl

/-- C10 witness: limit 0, empty map, a path with no access count — the
store still succeeds and inserts. -/
theorem C10_witness :
    (Cache.mk 0 [] [("/q", 7)]).store "/p" fileA =
      some (Cache.mk 0 [("/p", fileA)] [("/q", 7)], Except.ok ()) :=
  C10_store_into_empty_map_always_ok (Cache.mk 0 [] [("/q", 7)]) "/p" fileA
    rfl

/-- C2: on a miss whose filesystem read succeeds, `get_or_cache` returns a
handle carrying exactly the just-read bytes, regardless of the admission
decision `store` takes (admit, evict-and-admit, or reject): the source
builds the `CachedFile` before calling `store` and discards `store`'s
result.  The hypothesis `hcounted` is the reachable-state invariant that
every resident path is counted, which rules out the `unwrap` panic. -/
theorem C2_served_bytes_despite_rejection (reader : Path → Option SizedFile)
    (c : Cache) (p : Path) (f : SizedFile)
    (hcounted : ∀ k ∈ alistKeys c.file_map,
      (alistLookup c.access_count_map k).isSome = true)
    (hmiss : alistLookup c.file_map p = none)
    (hread : reader p = some f) :
    Option.map Prod.snd (Cache.get_or_cache reader c p) =
      some (some { path := p, file := f }) := by
  rw [Cache.get_or_cache, get_eq, hmiss]
  simp only [Option.map_none']
  have hc1 : ∀ k ∈ alistKeys c.file_map,
      (alistLookup (alistInsert c.access_count_map p
        ((alistLookup c.access_count_map p).getD 0 + 1)) k).isSome = true := by
    intro k hkm
    rcases eq_or_ne k p with rfl | hne
    · rw [alistLookup_insert_self]
      rfl
    · rw [alistLookup_insert_ne hne]
      exact hcounted k hkm
  have hs := store_isSome_of_counted
    (c := Cache.mk c.size_limit c.file_map
      (alistInsert c.access_count_map p
        ((alistLookup c.access_count_map p).getD 0 + 1))) p f hc1
  cases hst : (Cache.mk c.size_limit c.file_map
      (alistInsert c.access_count_map p
        ((alistLookup c.access_count_map p).getD 0 + 1))).store p f with
  | none => rw [hst] at hs; simp at hs
  | some out =>
      obtain ⟨c3, r⟩ := out
      simp [hread, hst]

/-- C2 witness: a concrete rejection — the cache keeps the hotter `/a`,
refuses `/b`, and the caller still receives `/b`'s bytes. -/
theorem C2_witness :
    Option.map Prod.snd (Cache.get_or_cache readerB cacheHot "/b") =
      some (some { path := "/b", file := fileB }) :=
  C2_served_bytes_despite_rejection readerB cacheHot "/b" fileB (by decide)
    (by decide) (by decide)

/-- C5: the spec says a file larger than the size limit (read in bytes) is
served but never retained (`Reject(TooLarge)`), with every repeated
request re-reading from disk.  The code has no size check at all: a 5-byte
file enters a fresh cache with limit 1, stays resident, and the repeated
request is served by the cache even when the filesystem (modelled by
`readerNone`) can no longer deliver anything. -/
theorem C5_oversized_file_retained_eval :
    (Cache.new 1).size_limit < file5.size ∧
    Cache.get_or_cache readerBig (Cache.new 1) "/big" =
      some (Cache.mk 1 [("/big", file5)] [("/big", 1)],
        some { path := "/big", file := file5 }) ∧
    Cache.get_or_cache readerNone
        (Cache.mk 1 [("/big", file5)] [("/big", 1)]) "/big" =
      some (Cache.mk 1 [("/big", file5)] [("/big", 2)],
        some { path := "/big", file := file5 }) := by decide

/-- C3 counterexample: the claim requires victims accumulated until their
cumulative size reaches `needed = used_bytes + size - size_limit`; here a
successful admission of the 25-byte `/b` evicts only the 10-byte `/a`
(10 < needed = 34), because the code never looks at sizes at all. -/
theorem C3_counterexample :
    cacheEv.store "/b" file25 = some (cacheEvAfter, Except.ok ()) ∧
    evicted cacheEv cacheEvAfter = ["/a"] ∧
    evictedBytes cacheEv cacheEvAfter <
      cacheEv.size_bytes + file25.size - cacheEv.size_limit := by decide

/-- C3 corrected: when an admission displaces residents, the code evicts
exactly one victim — an entry whose access count is minimal among all
resident entries (the first such in map iteration order) — chosen with no
regard to entry sizes, to the byte interpretation of the limit, or to any
cumulative-size goal; several victims are never evicted for one
admission. -/
theorem C3_amended_single_minimal_victim (c : Cache) (p : Path)
    (f : SizedFile) (c2 : Cache) (hwf : WF c)
    (hst : c.store p f = some (c2, Except.ok ())) :
    (evicted c c2).length ≤ 1 ∧
    ∀ k ∈ evicted c c2, ∃ cnt,
      alistLookup c.access_count_map k = some cnt ∧
      ∀ k2 ∈ alistKeys c.file_map, ∀ cnt2,
        alistLookup c.access_count_map k2 = some cnt2 → cnt ≤ cnt2 := by
  obtain ⟨_, hnd, hbound⟩ := hwf
  have hev := store_ok_evicted hbound hst
  constructor
  · refine length_le_one_of_all_eq (List.Nodup.filter _ hnd) ?_
    intro x hx y hy
    obtain ⟨_, _, _, _, huniq⟩ := hev x hx
    exact (huniq y hy).symm ▸ rfl
  · intro k hk
    obtain ⟨cnt, hlook, _, hmin, _⟩ := hev k hk
    exact ⟨cnt, hlook, hmin⟩

/-- C3 witness: the concrete eviction of `/a` for `/b` satisfies the
corrected statement. -/
theorem C3_amended_witness :
    (evicted cacheEv cacheEvAfter).length ≤ 1 ∧
    ∀ k ∈ evicted cacheEv cacheEvAfter, ∃ cnt,
      alistLookup cacheEv.access_count_map k = some cnt ∧
      ∀ k2 ∈ alistKeys cacheEv.file_map, ∀ cnt2,
        alistLookup cacheEv.access_count_map k2 = some cnt2 → cnt ≤ cnt2 :=
  C3_amended_single_minimal_victim cacheEv "/b" file25 cacheEvAfter
    (by decide) (by decide)

/-- C4: whenever a successful `store` displaces resident entries, every
displaced entry was counted and its access count at the moment of the
decision is strictly below the candidate's (the source only evicts under
`possible_store_count > lowest_count`, and the victim is exactly the entry
realising `lowest_count`). -/
theorem C4_candidate_count_exceeds_victims (c : Cache) (p : Path)
    (f : SizedFile) (c2 : Cache) (hwf : WF c)
    (hst : c.store p f = some (c2, Except.ok ())) :
    ∀ k ∈ evicted c c2, ∃ cnt,
      alistLookup c.access_count_map k = some cnt ∧
      cnt < (alistLookup c.access_count_map p).getD 0 := by
  obtain ⟨_, _, hbound⟩ := hwf
  intro k hk
  obtain ⟨cnt, hlook, hlt, _, _⟩ := store_ok_evicted hbound hst k hk
  exact ⟨cnt, hlook, hlt⟩

/-- C4 witness: in the concrete eviction the victim `/a` has count 1,
strictly below the candidate `/b`'s count 2. -/
theorem C4_witness :
    "/a" ∈ evicted cacheEv cacheEvAfter ∧
    ∃ cnt, alistLookup cacheEv.access_count_map "/a" = some cnt ∧
      cnt < (alistLookup cacheEv.access_count_map "/b").getD 0 :=
  ⟨by decide,
    C4_candidate_count_exceeds_victims cacheEv "/b" file25 cacheEvAfter
      (by decide) (by decide) "/a" (by decide)⟩

/-- A `store` that returned `Err` left the cache unchanged. -/
theorem store_err_eq {c : Cache} {p : Path} {f : SizedFile} {c2 : Cache}
    {msg : String} (h : c.store p f = some (c2, Except.error msg)) :
    c2 = c := by
  rw [Cache.store] at h
  by_cases hsz : c.size < c.size_limit
  · rw [if_pos hsz, Option.some.injEq, Prod.mk.injEq] at h
    exact absurd h.2 (by simp)
  · rw [if_neg hsz] at h
    cases hlow : c.lowest_access_count_in_file_map with
    | none => rw [hlow] at h; exact absurd h (by simp)
    | some lo =>
        cases lo with
        | none =>
            simp only [hlow, Option.some.injEq, Prod.mk.injEq] at h
            exact absurd h.2 (by simp)
        | some pr =>
            obtain ⟨lc, lk⟩ := pr
            simp only [hlow] at h
            by_cases hgt : (alistLookup c.access_count_map p).getD 0 > lc
            · rw [if_pos hgt, Option.some.injEq, Prod.mk.injEq] at h
              exact absurd h.2 (by simp)
            · rw [if_neg hgt, Option.some.injEq, Prod.mk.injEq] at h
              exact h.1.symm

/-- C6 counterexample: `/b` is read successfully and `get_or_cache`
returns its bytes, but admission is refused (the resident `/a` is more
demanded), so the immediately following `get("/b")` returns nothing — the
two calls do not both return the bytes. -/
theorem C6_counterexample :
    Cache.get_or_cache readerB cacheHot "/b" =
      some (cacheHotAfter, some { path := "/b", file := fileB }) ∧
    (Cache.get cacheHotAfter "/b").2 = none := by decide

/-- C6 corrected: after a `get_or_cache(p)` that returned a handle, the
immediately following `get(p)` returns byte-identical content whenever `p`
is then resident (cache hit, or miss whose `store` admitted the file, with
or without eviction); when the admission was rejected, `p` is not resident
and the `get` returns none. -/
theorem C6_amended_get_after_get_or_cache (reader : Path → Option SizedFile)
    (c : Cache) (p : Path) (c2 : Cache) (h : CachedFile)
    (hg : Cache.get_or_cache reader c p = some (c2, some h)) :
    (Cache.get c2 p).2 = some { path := p, file := h.file } ∨
    (alistLookup c2.file_map p = none ∧ (Cache.get c2 p).2 = none) := by
  rw [Cache.get_or_cache, get_eq] at hg
  cases hres : alistLookup c.file_map p with
  | some sf =>
      simp only [hres, Option.map_some', Option.some.injEq,
        Prod.mk.injEq] at hg
      obtain ⟨hc2, hh⟩ := hg
      left
      rw [← hc2, get_eq]
      simp only [hres, Option.map_some', Option.some.injEq]
      rw [← hh]
  | none =>
      simp only [hres, Option.map_none'] at hg
      cases hrd : reader p with
      | none => rw [hrd] at hg; exact absurd hg (by simp)
      | some f =>
          simp only [hrd] at hg
          cases hst : (Cache.mk c.size_limit c.file_map
              (alistInsert c.access_count_map p
                ((alistLookup c.access_count_map p).getD 0 + 1))).store p f with
          | none => rw [hst] at hg; exact absurd hg (by simp)
          | some out =>
              obtain ⟨c3, r⟩ := out
              simp only [hst, Option.some.injEq, Prod.mk.injEq] at hg
              obtain ⟨hc2, hh⟩ := hg
              cases r with
              | ok u =>
                  cases u
                  left
                  have hmap : alistLookup c3.file_map p = some f := by
                    rcases store_ok_cases hst with hi | ⟨lc, lk, _, _, hi⟩ <;>
                      rw [hi] <;> exact alistLookup_insert_self
                  rw [← hc2, get_eq]
                  simp only [hmap, Option.map_some', Option.some.injEq]
                  rw [← hh]
              | error msg =>
                  right
                  have hc3 := store_err_eq hst
                  have hlk : alistLookup c2.file_map p = none := by
                    rw [← hc2, hc3]
                    exact hres
                  refine ⟨hlk, ?_⟩
                  rw [get_eq]
                  simp [hlk]

/-- C6 witness: the concrete rejected admission lands in the corrected
statement's second branch. -/
theorem C6_amended_witness :
    (Cache.get cacheHotAfter "/b").2 =
      some { path := "/b", file := fileB } ∨
    (alistLookup cacheHotAfter.file_map "/b" = none ∧
      (Cache.get cacheHotAfter "/b").2 = none) :=
  C6_amended_get_after_get_or_cache readerB cacheHot "/b" cacheHotAfter
    { path := "/b", file := fileB } (by decide)

/-- C7: every `get` and every completed `get_or_cache` sets the requested
path's access count to its previous value plus one (so a first observation
creates it at 1) and `get` changes nothing else; and when the path is
non-resident and the read fails, `get_or_cache` returns none with the
state exactly as `get` left it — counter still raised, everything else
unchanged. -/
theorem C7_counter_increment (c : Cache) (p : Path)
    (reader : Path → Option SizedFile) :
    ((c.get p).1.access_count_map =
        alistInsert c.access_count_map p
          ((alistLookup c.access_count_map p).getD 0 + 1) ∧
      (c.get p).1.file_map = c.file_map ∧
      (c.get p).1.size_limit = c.size_limit) ∧
    (∀ c2 r, Cache.get_or_cache reader c p = some (c2, r) →
      c2.access_count_map =
        alistInsert c.access_count_map p
          ((alistLookup c.access_count_map p).getD 0 + 1)) ∧
    (alistLookup c.file_map p = none → reader p = none →
      Cache.get_or_cache reader c p = some ((c.get p).1, none)) := by
  refine ⟨⟨by rw [get_eq], by rw [get_eq], by rw [get_eq]⟩, ?_, ?_⟩
  · intro c2 r hg
    rw [Cache.get_or_cache, get_eq] at hg
    cases hres : alistLookup c.file_map p with
    | some sf =>
        simp only [hres, Option.map_some', Option.some.injEq,
          Prod.mk.injEq] at hg
        rw [← hg.1]
    | none =>
        simp only [hres, Option.map_none'] at hg
        cases hrd : reader p with
        | none =>
            simp only [hrd, Option.some.injEq, Prod.mk.injEq] at hg
            rw [← hg.1]
        | some f =>
            simp only [hrd] at hg
            cases hst : (Cache.mk c.size_limit c.file_map
                (alistInsert c.access_count_map p
                  ((alistLookup c.access_count_map p).getD 0 + 1))).store p f with
            | none => rw [hst] at hg; exact absurd hg (by simp)
            | some out =>
                obtain ⟨c3, r2⟩ := out
                simp only [hst, Option.some.injEq, Prod.mk.injEq] at hg
                rw [← hg.1]
                exact (store_preserves_counts hst).1
  · intro hres hrd
    rw [Cache.get_or_cache, get_eq, hres]
    simp only [Option.map_none', hrd]

/-- C7 witness: first observation of `/p` on a fresh cache via a failing
read — the counter is created at 1, the result is absent, and the state is
exactly what `get` alone produces. -/
theorem C7_witness :
    Cache.get_or_cache readerNone (Cache.new 2) "/p" =
      some (((Cache.new 2).get "/p").1, none) ∧
    ((Cache.new 2).get "/p").1.access_count_map = [("/p", 1)] :=
  ⟨(C7_counter_increment (Cache.new 2) "/p" readerNone).2.2 rfl rfl,
    by decide⟩

end HomepageCache
